import Mathlib

/-!
Formal model of the Ottawa housing affordability pipeline
(src/build_tableau_files.py): the affordability band classifier, the
ward-identifier field inference over GeoJSON properties, point-in-polygon
ward assignment, ward-level aggregation with listing-style shares, and the
income inner join that produces the dashboard table.

Python/pandas floats are modelled by `FloatVal`: NaN, the two infinities,
and finite values represented exactly as rationals.  IEEE comparison and
division semantics are transcribed where the pipeline relies on them
(NaN compares false against everything; a positive finite value divided
by zero is `posInf`, `0/0` is NaN; signed zero is not distinguished).
Missing (NaN) entries of optional columns are modelled as `Option`.
-/

/-- A Python/pandas double: NaN, plus or minus infinity, or a finite value
(represented exactly as a rational). -/
inductive FloatVal : Type
  | nan
  | posInf
  | negInf
  | finite (q : ℚ)
  deriving DecidableEq

/-- Model of `pd.isna` on a scalar float: true exactly on NaN. -/
def FloatVal.isna : FloatVal → Bool
  | .nan => true
  | _ => false

/-- IEEE comparison of a float against a finite constant, as used by
`ratio < 4` etc. in `affordability_band`: NaN compares false,
`-inf < c` is true, `+inf < c` is false. -/
def FloatVal.lt : FloatVal → ℚ → Bool
  | .nan, _ => false
  | .posInf, _ => false
  | .negInf, _ => true
  | .finite x, c => decide (x < c)

/-- IEEE division, as performed by the pandas column division
`Median_List_Price / Average_Household_Income` (line 293 of
build_tableau_files.py).  NaN propagates; a nonzero finite value divided
by zero gives a signed infinity (numpy emits a warning, not an error);
`0/0` gives NaN.  Signed zero is not modelled: division by zero uses the
sign of the numerator only, matching positive zero denominators, which is
what `pd.to_numeric` produces for a literal `0`. -/
def FloatVal.div : FloatVal → FloatVal → FloatVal
  | .nan, _ => .nan
  | _, .nan => .nan
  | .finite x, .finite y =>
      if y = 0 then (if x = 0 then .nan else if 0 < x then .posInf else .negInf)
      else .finite (x / y)
  | .finite _, .posInf => .finite 0
  | .finite _, .negInf => .finite 0
  | .posInf, .finite y => if 0 ≤ y then .posInf else .negInf
  | .negInf, .finite y => if 0 ≤ y then .negInf else .posInf
  | .posInf, .posInf => .nan
  | .posInf, .negInf => .nan
  | .negInf, .posInf => .nan
  | .negInf, .negInf => .nan

/-- View an optional (possibly missing) column value as a float: a missing
entry is NaN. -/
def FloatVal.ofOpt : Option ℚ → FloatVal
  | none => .nan
  | some q => .finite q

/-- Transcription of `affordability_band` (build_tableau_files.py lines
174-187): NaN ratios map to "Unknown", then the thresholds 4, 6, 8 are
tested in order with strict `<`. -/
def affordability_band (ratio : FloatVal) : String :=
  if ratio.isna then "Unknown"
  else if ratio.lt 4 then "More Affordable (<4x)"
  else if ratio.lt 6 then "Stretched (4–6x)"
  else if ratio.lt 8 then "High Risk (6–8x)"
  else "Severe Risk (8x+)"

/-- The ratio and band computed for one joined dashboard row (lines
293-294): divide the median price (possibly NaN) by the average household
income and classify. -/
def rowBand (medianPrice : Option ℚ) (income : ℚ) : String :=
  affordability_band (FloatVal.div (FloatVal.ofOpt medianPrice) (FloatVal.finite income))

/-! ### Ward-identifier field inference (detect_ward_id_field, lines 78-128) -/

/-- A GeoJSON property value as seen by `detect_ward_id_field`: an integer,
a string, or null/absent.  Other JSON values (non-integral numbers, objects,
arrays) never survive `int(str(v).strip())`, so they behave exactly like a
non-parsing string and are not distinguished further. -/
inductive PropVal : Type
  | vInt (n : ℤ)
  | vStr (s : String)
  | vNull
  deriving DecidableEq

/-- Reading of a digits-only character list: `none` unless non-empty and
all decimal digits. -/
def digitsToNat (cs : List Char) : Option ℕ :=
  match cs with
  | [] => none
  | _ =>
    cs.foldl
      (fun acc c =>
        match acc with
        | none => none
        | some n => if c.isDigit then some (n * 10 + (c.toNat - '0'.toNat)) else none)
      (some 0)

/-- Model of Python `int(s)` on a string: strip whitespace, then an
optional sign followed by one or more decimal digits.  (Python also
accepts underscore digit separators; those never occur in ward metadata
and are not modelled.) -/
def pythonIntOfString (s : String) : Option ℤ :=
  match s.trim.toList with
  | '-' :: rest => (digitsToNat rest).map (fun n => -(n : ℤ))
  | '+' :: rest => (digitsToNat rest).map (fun n => (n : ℤ))
  | cs => (digitsToNat cs).map (fun n => (n : ℤ))

/-- Result of `int(str(v).strip())` (line 105) on a property value:
integers round-trip through `str`; strings are parsed; `None` (whose `str`
form "None" has no digits) fails. -/
def PropVal.toIntOpt : PropVal → Option ℤ
  | .vInt n => some n
  | .vStr s => pythonIntOfString s
  | .vNull => none

/-- One GeoJSON feature: its property mapping in schema order (Python
dicts preserve insertion order and have unique keys). -/
structure Feature : Type where
  properties : List (String × PropVal)
  deriving DecidableEq

/-- Property lookup with default `None`: `f.get("properties", {}).get(k, None)`
(line 97). -/
def Feature.getProp (f : Feature) (k : String) : PropVal :=
  match f.properties.lookup k with
  | some v => v
  | none => .vNull

/-- The value column built for key `k` (lines 95-98). -/
def fieldVals (features : List Feature) (k : String) : List PropVal :=
  features.map (fun f => f.getProp k)

/-- The successfully converted integers for key `k` (lines 101-109). -/
def convertedInts (features : List Feature) (k : String) : List ℤ :=
  (fieldVals features k).filterMap PropVal.toIntOpt

/-- The count `ok` of successful integer parses for key `k`. -/
def okCount (features : List Feature) (k : String) : ℕ :=
  (convertedInts features k).length

/-- The count `in_range` of parsed values in the plausible ward-number
range [1, 30] (line 115). -/
def inRangeCount (features : List Feature) (k : String) : ℕ :=
  (convertedInts features k).countP (fun iv => decide (1 ≤ iv ∧ iv ≤ 30))

/-- The score `ok + in_range` (line 116). -/
def fieldScore (features : List Feature) (k : String) : ℕ :=
  okCount features k + inRangeCount features k

/-- One step of the best-key loop (lines 94-120): a key with no successful
parse is skipped; otherwise it replaces the current best exactly when its
score strictly exceeds the best score so far. -/
def scoreStep (features : List Feature) (acc : Option String × ℤ) (k : String) :
    Option String × ℤ :=
  if okCount features k = 0 then acc
  else if (fieldScore features k : ℤ) > acc.2 then (some k, (fieldScore features k : ℤ))
  else acc

/-- The candidate keys: the first feature's property keys (lines 87-88). -/
def candidateKeys : List Feature → List String
  | [] => []
  | f0 :: _ => f0.properties.map Prod.fst

/-- Transcription of `detect_ward_id_field` (lines 78-128).  An empty
feature collection raises; otherwise the loop runs from
`best_key = None, best_score = -1` over the candidate keys, and a `None`
best key at the end raises. -/
def detect_ward_id_field (features : List Feature) : Except String String :=
  match features with
  | [] => .error "No features found in wards GeoJSON."
  | _ :: _ =>
    match (candidateKeys features).foldl (scoreStep features) (none, -1) with
    | (some k, _) => .ok k
    | (none, _) =>
      .error "Could not auto-detect ward number field in GeoJSON properties."

/-- Truth value of a detection failure (a raised `ValueError`). -/
def detectFails (r : Except String String) : Bool :=
  match r with
  | .error _ => true
  | .ok _ => false

/-- Invariant of the best-key fold: either no processed key parsed at all
and the accumulator is still `(None, -1)`, or the accumulator holds the
first processed key attaining the maximal score, together with its score. -/
def ScoreInv (features : List Feature) (done : List String) (acc : Option String × ℤ) :
    Prop :=
  (acc = (none, -1) ∧ ∀ k ∈ done, okCount features k = 0) ∨
  ∃ bk pre post,
    acc = (some bk, (fieldScore features bk : ℤ)) ∧
    done = pre ++ bk :: post ∧
    okCount features bk ≠ 0 ∧
    (∀ k ∈ pre, fieldScore features k < fieldScore features bk) ∧
    (∀ k ∈ post, fieldScore features k ≤ fieldScore features bk)

/-! ### Spatial assignment (assign_ward_to_points, lines 131-171) -/

/-- A listing row after the cleanup in `main` (price parsed to float,
walkScore numeric): `none` models a NaN entry of the optional columns,
missing coordinates included. -/
structure Listing : Type where
  latitude : Option ℚ
  longitude : Option ℚ
  price : Option ℚ
  walkScore : Option ℚ
  style : Option String
  deriving DecidableEq

/-- A ward polygon modelled extensionally by its boundary-inclusive
containment test: the pipeline interrogates a geometry only through
`poly.covers(pt)` (line 161), with points as (longitude, latitude)
pairs (line 156). -/
def Polygon : Type := ℚ × ℚ → Bool

/-- One entry of the `ward_polygons` list: an integer ward id with its
geometry. -/
structure WardPolygon : Type where
  ward_id : ℤ
  geometry : Polygon

/-- The containment loop for one listing row (lines 148-165): a row with
a missing coordinate is skipped; otherwise the row is assigned to the
first polygon in the provided order whose `covers` test succeeds, and no
further polygons are examined (the loop breaks). -/
def assignListing (wards : List WardPolygon) (l : Listing) : Option ℤ :=
  match l.latitude, l.longitude with
  | some lat, some lon =>
    match wards.find? (fun w => w.geometry (lon, lat)) with
    | some w => some w.ward_id
    | none => none
  | _, _ => none

/-- Transcription of `assign_ward_to_points` (lines 131-171): assign every
row, then drop the rows whose `Ward` stayed missing (line 168).  The
result pairs each surviving listing with its integer ward id. -/
def assign_ward_to_points (listings : List Listing) (wards : List WardPolygon) :
    List (Listing × ℤ) :=
  listings.filterMap (fun l => (assignListing wards l).map (fun wid => (l, wid)))

/-! ### Ward aggregation (lines 241-285) -/

/-- Insertion into an ascending duplicate-free sorted list of ward ids
(pandas `groupby` sorts its group keys and emits each once). -/
def insertWard (x : ℤ) : List ℤ → List ℤ
  | [] => [x]
  | y :: ys =>
    if x < y then x :: y :: ys else if x = y then y :: ys else y :: insertWard x ys

/-- The distinct ward ids of the assigned table in ascending order: the
index of `groupby("Ward")`. -/
def wardsOf (assigned : List (Listing × ℤ)) : List ℤ :=
  (assigned.map Prod.snd).foldr insertWard []

/-- The listing rows of one ward group, in input order. -/
def wardRows (assigned : List (Listing × ℤ)) (w : ℤ) : List Listing :=
  (assigned.filter (fun p => decide (p.2 = w))).map Prod.fst

/-- Insertion into an ascending-sorted list of rationals. -/
def insertRat (x : ℚ) : List ℚ → List ℚ
  | [] => [x]
  | y :: ys => if x ≤ y then x :: y :: ys else y :: insertRat x ys

/-- Ascending insertion sort.  Sorting by the total order of the rationals
determines the output list, so this agrees extensionally with whatever
sort pandas uses for quantiles. -/
def sortRat (xs : List ℚ) : List ℚ :=
  xs.foldr insertRat []

/-- Pandas `Series.median` over the non-missing values of a column (the
callers below pass the NaN-filtered list): NaN (`none`) for an empty
list, the middle order statistic for an odd count, the mean of the two
middle order statistics for an even count. -/
def pandasMedian (xs : List ℚ) : Option ℚ :=
  if (sortRat xs).length = 0 then none
  else if (sortRat xs).length % 2 = 1 then
    some ((sortRat xs).getD ((sortRat xs).length / 2) 0)
  else
    some (((sortRat xs).getD ((sortRat xs).length / 2 - 1) 0 +
      (sortRat xs).getD ((sortRat xs).length / 2) 0) / 2)

/-- Pandas `Series.mean` over the non-missing values: sum over count,
NaN (`none`) for an empty list. -/
def pandasMean (xs : List ℚ) : Option ℚ :=
  if xs.length = 0 then none else some (xs.sum / (xs.length : ℚ))

/-- One output row of `groupby("Ward").agg(...)` (lines 241-250). -/
structure WardAggRow : Type where
  Ward : ℤ
  Listings : ℕ
  Median_List_Price : Option ℚ
  Mean_List_Price : Option ℚ
  Median_WalkScore : Option ℚ
  deriving DecidableEq

/-- The aggregate row of one ward: count, median and mean over the
non-missing prices, median over the non-missing walk scores. -/
def aggRow (assigned : List (Listing × ℤ)) (w : ℤ) : WardAggRow :=
  { Ward := w
    Listings := ((wardRows assigned w).filterMap Listing.price).length
    Median_List_Price := pandasMedian ((wardRows assigned w).filterMap Listing.price)
    Mean_List_Price := pandasMean ((wardRows assigned w).filterMap Listing.price)
    Median_WalkScore := pandasMedian ((wardRows assigned w).filterMap Listing.walkScore) }

/-- The ward aggregate table (lines 241-250): one row per distinct ward,
in ascending ward order. -/
def ward_agg (assigned : List (Listing × ℤ)) : List WardAggRow :=
  (wardsOf assigned).map (aggRow assigned)

/-- The categories observed anywhere in the assigned dataset: the distinct
non-missing `Listing_Style` values.  `groupby(["Ward", "Listing_Style"])`
(line 257) drops rows whose style is NaN, and the pivot's columns (line
271) are exactly the style values that survive.  Pandas orders the columns
lexicographically; column order is immaterial to the properties proved
here, so the dedup order is used. -/
def globalStyles (assigned : List (Listing × ℤ)) : List String :=
  ((assigned.map Prod.fst).filterMap Listing.style).dedup

/-- The `Style_Count` of category `s` in ward `w` (lines 255-259). -/
def styleCount (assigned : List (Listing × ℤ)) (w : ℤ) (s : String) : ℕ :=
  ((wardRows assigned w).filterMap Listing.style).count s

/-- The `Ward_Total` of ward `w` (lines 263-265): the per-style counts of
the ward summed, i.e. the number of its rows with a non-missing style. -/
def wardStyleTotal (assigned : List (Listing × ℤ)) (w : ℤ) : ℕ :=
  ((wardRows assigned w).filterMap Listing.style).length

/-- The `StyleShare_<s>` entry of ward `w` after the share division (line
268), the pivot with `fill_value=0` (lines 271-277) and the `how="left"`
merge back onto the aggregate table (line 285): a ward with at least one
non-missing style gets `count / total` (0 for a category absent from the
ward); a ward none of whose rows has a style is absent from the pivot
index, so the left merge leaves its entries NaN (`none`). -/
def styleShareEntry (assigned : List (Listing × ℤ)) (w : ℤ) (s : String) : Option ℚ :=
  if wardStyleTotal assigned w = 0 then none
  else some ((styleCount assigned w s : ℚ) / (wardStyleTotal assigned w : ℚ))

/-! ### Income join and dashboard (lines 193-297) -/

/-- An income row after the cleanup at lines 195-206: the ward an int, the
income a non-missing float (`dropna` already ran on both columns). -/
structure IncomeRow : Type where
  Ward : ℤ
  Average_Household_Income : ℚ
  deriving DecidableEq

/-- Pandas `income.merge(ward_agg, on="Ward", how="inner")` (line 291):
one output row per pair of input rows with equal ward keys, left (income)
rows outermost. -/
def innerMerge (income : List IncomeRow) (agg : List WardAggRow) :
    List (IncomeRow × WardAggRow) :=
  income.flatMap (fun i => (agg.filter (fun a => decide (a.Ward = i.Ward))).map (fun a => (i, a)))

/-- One row of the final dashboard table. -/
structure DashRow : Type where
  income : IncomeRow
  agg : WardAggRow
  Affordability_Ratio : FloatVal
  Affordability_Band : String
  deriving DecidableEq

/-- Lines 293-294 on one joined row: the float division of the median
price by the average income, then the band classifier. -/
def mkDashRow (i : IncomeRow) (a : WardAggRow) : DashRow :=
  { income := i
    agg := a
    Affordability_Ratio :=
      FloatVal.div (FloatVal.ofOpt a.Median_List_Price)
        (FloatVal.finite i.Average_Household_Income)
    Affordability_Band :=
      affordability_band
        (FloatVal.div (FloatVal.ofOpt a.Median_List_Price)
          (FloatVal.finite i.Average_Household_Income)) }

/-- The dashboard table (lines 291-297). -/
def dashboard (income : List IncomeRow) (agg : List WardAggRow) : List DashRow :=
  (innerMerge income agg).map (fun p => mkDashRow p.1 p.2)

/-! ### Concrete inputs used by witness and counterexample theorems -/

/-- The field-inference example from the spec: three features with fields
OBJECTID = 101, 102, 103 and WARD_NUM = 1, 2, 3. -/
def exFeatures : List Feature :=
  [⟨[("OBJECTID", .vInt 101), ("WARD_NUM", .vInt 1)]⟩,
   ⟨[("OBJECTID", .vInt 102), ("WARD_NUM", .vInt 2)]⟩,
   ⟨[("OBJECTID", .vInt 103), ("WARD_NUM", .vInt 3)]⟩]

/-- A ward polygon that covers no point with positive longitude. -/
def exWardOut : WardPolygon :=
  ⟨3, fun p => decide (p.1 < 0)⟩

/-- A ward polygon that covers every point with non-negative longitude. -/
def exWardIn : WardPolygon :=
  ⟨7, fun p => decide (0 ≤ p.1)⟩

/-- A listing at longitude 1, latitude 45. -/
def exListingPt : Listing :=
  ⟨some 45, some 1, some 100000, none, none⟩

/-- A listing with a missing latitude. -/
def exListingNoLat : Listing :=
  ⟨none, some 1, some 100000, none, none⟩

/-- The assigned table of the end-to-end scenario of the spec: three
listings in ward 1 with prices 500000, 520000, 600000 and two in ward 2
with prices 700000, 720000 (walk scores all missing). -/
def exAssigned6 : List (Listing × ℤ) :=
  [(⟨some 45, some 1, some 500000, none, none⟩, 1),
   (⟨some 45, some 2, some 520000, none, none⟩, 1),
   (⟨some 45, some 3, some 600000, none, none⟩, 1),
   (⟨some 46, some 1, some 700000, none, none⟩, 2),
   (⟨some 46, some 2, some 720000, none, none⟩, 2)]

/-- An assigned table where the single listing of ward 1 has a missing
style while ward 2 contributes the global style "Condo". -/
def exAssigned5 : List (Listing × ℤ) :=
  [(⟨some 45, some 1, some 100000, none, none⟩, 1),
   (⟨some 46, some 1, some 200000, none, some "Condo"⟩, 2)]

/-- An income table whose single ward has average income 0 (a value
`pd.to_numeric` keeps and `dropna` does not remove). -/
def exIncomeZero : List IncomeRow := [⟨1, 0⟩]

/-- An assigned table giving ward 1 the median price 800000. -/
def exAssignedC2 : List (Listing × ℤ) :=
  [(⟨some 45, some 1, some 800000, none, none⟩, 1)]

/-- An income table with a duplicated ward id. -/
def exIncomeDup : List IncomeRow := [⟨1, 100000⟩, ⟨1, 120000⟩]

/-- An income table with distinct ward ids, one matching ward 1 and one
matching nothing. -/
def exIncomeOk : List IncomeRow := [⟨1, 150000⟩, ⟨9, 150000⟩]

/-- Rewriting lemma: on a finite ratio the classifier is the plain nested
conditional over the rational value. -/
theorem affordability_band_finite (q : ℚ) :
    affordability_band (.finite q) =
      if q < 4 then "More Affordable (<4x)"
      else if q < 6 then "Stretched (4–6x)"
      else if q < 8 then "High Risk (6–8x)"
      else "Severe Risk (8x+)" := by
  simp [affordability_band, FloatVal.isna, FloatVal.lt]

/-- C1: on every finite non-negative ratio the classifier is total and
non-overlapping with boundaries closed on the lower edge: it returns
"More Affordable (<4x)" exactly when ratio < 4, "Stretched (4–6x)" exactly
when 4 ≤ ratio < 6, "High Risk (6–8x)" exactly when 6 ≤ ratio < 8, and
"Severe Risk (8x+)" exactly when ratio ≥ 8. -/
theorem affordability_band_partition (q : ℚ) (hq : 0 ≤ q) :
    (affordability_band (.finite q) = "More Affordable (<4x)" ↔ q < 4) ∧
    (affordability_band (.finite q) = "Stretched (4–6x)" ↔ 4 ≤ q ∧ q < 6) ∧
    (affordability_band (.finite q) = "High Risk (6–8x)" ↔ 6 ≤ q ∧ q < 8) ∧
    (affordability_band (.finite q) = "Severe Risk (8x+)" ↔ 8 ≤ q) := by
  have h0 : (0:ℚ) ≤ q := hq
  rw [affordability_band_finite]
  refine ⟨?_, ?_, ?_, ?_⟩ <;> split_ifs with h1 h2 h3 <;> constructor <;> intro h <;>
    first
      | rfl
      | exact absurd h (by decide)
      | exact ⟨by linarith, by linarith⟩
      | linarith

/-- Witness for C1 at the boundary input: the ratio 4.0 is classified
"Stretched (4–6x)", not "More Affordable (<4x)". -/
theorem affordability_band_partition_witness :
    (0:ℚ) ≤ 4 ∧
      (affordability_band (.finite 4) = "Stretched (4–6x)" ↔ 4 ≤ (4:ℚ) ∧ (4:ℚ) < 6) :=
  ⟨by norm_num, (affordability_band_partition 4 (by norm_num)).2.1⟩

/-- C10: the band classifier is total over all float inputs: every input
yields one of the five labels (which are pairwise distinct literals, so
exactly one is returned, and no exception can be raised by a total
function); NaN yields "Unknown", positive infinity yields
"Severe Risk (8x+)", negative infinity and every negative finite ratio
yield "More Affordable (<4x)". -/
theorem affordability_band_total (v : FloatVal) :
    (affordability_band v = "Unknown" ∨ affordability_band v = "More Affordable (<4x)" ∨
      affordability_band v = "Stretched (4–6x)" ∨ affordability_band v = "High Risk (6–8x)" ∨
      affordability_band v = "Severe Risk (8x+)") ∧
    (v = .nan → affordability_band v = "Unknown") ∧
    (v = .posInf → affordability_band v = "Severe Risk (8x+)") ∧
    (v = .negInf → affordability_band v = "More Affordable (<4x)") ∧
    (∀ q : ℚ, v = .finite q → q < 0 → affordability_band v = "More Affordable (<4x)") := by
  cases v with
  | nan =>
    refine ⟨Or.inl rfl, fun _ => rfl, ?_, ?_, ?_⟩
    · intro h; exact absurd h (by decide)
    · intro h; exact absurd h (by decide)
    · intro q h; exact absurd h (by simp)
  | posInf =>
    refine ⟨Or.inr (Or.inr (Or.inr (Or.inr rfl))), ?_, fun _ => rfl, ?_, ?_⟩
    · intro h; exact absurd h (by decide)
    · intro h; exact absurd h (by decide)
    · intro q h; exact absurd h (by simp)
  | negInf =>
    refine ⟨Or.inr (Or.inl rfl), ?_, ?_, fun _ => rfl, ?_⟩
    · intro h; exact absurd h (by decide)
    · intro h; exact absurd h (by decide)
    · intro q h; exact absurd h (by simp)
  | finite q =>
    refine ⟨?_, ?_, ?_, ?_, ?_⟩
    · rw [affordability_band_finite]
      split_ifs
      · exact Or.inr (Or.inl rfl)
      · exact Or.inr (Or.inr (Or.inl rfl))
      · exact Or.inr (Or.inr (Or.inr (Or.inl rfl)))
      · exact Or.inr (Or.inr (Or.inr (Or.inr rfl)))
    · intro h; exact absurd h (by simp)
    · intro h; exact absurd h (by simp)
    · intro h; exact absurd h (by simp)
    · intro q2 hq2 hneg
      injection hq2 with h
      subst h
      rw [affordability_band_finite, if_pos (by linarith)]

/-- Witness for C10 at NaN, positive infinity and the negative ratio -1. -/
theorem affordability_band_total_witness :
    affordability_band .nan = "Unknown" ∧
    affordability_band .posInf = "Severe Risk (8x+)" ∧
    affordability_band (.finite (-1)) = "More Affordable (<4x)" :=
  ⟨(affordability_band_total .nan).2.1 rfl,
   (affordability_band_total .posInf).2.2.1 rfl,
   (affordability_band_total (.finite (-1))).2.2.2.2 (-1) rfl (by norm_num)⟩

/-- Counterexample to C2: a reachable dashboard row whose average
household income is 0 (a literal 0 survives `pd.to_numeric` and `dropna`)
and whose median price is 800000 gets the ratio +inf and the band
"Severe Risk (8x+)", not "Unknown" — the zero denominator reaches the
threshold comparisons. -/
theorem zero_income_band_not_unknown :
    (dashboard exIncomeZero (ward_agg exAssignedC2)).map
        (fun d => (d.income.Average_Household_Income, d.Affordability_Band)) =
      [(0, "Severe Risk (8x+)")] ∧
    "Severe Risk (8x+)" ≠ "Unknown" := by
  exact ⟨by decide, by decide⟩

/-- C2 amended: rows with a missing income never reach the dashboard (the
income table is `dropna`d before the join, so every joined row carries a
finite income), and a missing (NaN) median price does yield the band
"Unknown"; but a zero income is NOT captured by the "Unknown" path: with
a positive median price the division yields +inf and the band is
"Severe Risk (8x+)".  No division error is raised in either case — the
row computation is total. -/
theorem band_of_nan_median_and_zero_income (a : WardAggRow) (i : IncomeRow) :
    (a.Median_List_Price = none → (mkDashRow i a).Affordability_Band = "Unknown") ∧
    (∀ q : ℚ, a.Median_List_Price = some q → 0 < q → i.Average_Household_Income = 0 →
      (mkDashRow i a).Affordability_Band = "Severe Risk (8x+)") := by
  constructor
  · intro h
    simp [mkDashRow, h, FloatVal.ofOpt, FloatVal.div, affordability_band, FloatVal.isna]
  · intro q hq hpos hz
    have hdiv : FloatVal.div (.finite q) (.finite 0) = .posInf := by
      simp [FloatVal.div, hpos, hpos.ne']
    simp [mkDashRow, hq, hz, FloatVal.ofOpt, hdiv, affordability_band,
      FloatVal.isna, FloatVal.lt]

/-- Witness for the amended C2 on a concrete joined row: median 800000,
income 0 yields "Severe Risk (8x+)". -/
theorem band_of_nan_median_and_zero_income_witness :
    (mkDashRow ⟨1, 0⟩ ⟨1, 1, some 800000, some 800000, none⟩).Affordability_Band =
      "Severe Risk (8x+)" :=
  (band_of_nan_median_and_zero_income ⟨1, 1, some 800000, some 800000, none⟩ ⟨1, 0⟩).2
    800000 rfl (by norm_num) rfl

/-- A key none of whose values parses has score 0 (its in-range count is
bounded by its parse count). -/
theorem fieldScore_of_ok_zero {features : List Feature} {k : String}
    (h : okCount features k = 0) : fieldScore features k = 0 := by
  have hle : inRangeCount features k ≤ okCount features k :=
    List.countP_le_length _
  simp only [fieldScore]
  omega

/-- A key with at least one successful parse has score at least 1. -/
theorem fieldScore_pos {features : List Feature} {k : String}
    (h : okCount features k ≠ 0) : 1 ≤ fieldScore features k := by
  simp only [fieldScore]
  omega

/-- One loop step preserves the best-key invariant. -/
theorem scoreStep_inv {features : List Feature} {done : List String}
    {acc : Option String × ℤ} (h : ScoreInv features done acc) (k : String) :
    ScoreInv features (done ++ [k]) (scoreStep features acc k) := by
  by_cases hok : okCount features k = 0
  · have hstep : scoreStep features acc k = acc := by simp [scoreStep, hok]
    rw [hstep]
    rcases h with ⟨hacc, hall⟩ | ⟨bk, pre, post, hacc, hdone, hbk, hpre, hpost⟩
    · refine Or.inl ⟨hacc, ?_⟩
      intro k2 hk2
      rcases List.mem_append.mp hk2 with h2 | h2
      · exact hall k2 h2
      · rw [List.mem_singleton.mp h2]
        exact hok
    · refine Or.inr ⟨bk, pre, post ++ [k], hacc, by rw [hdone]; simp, hbk, hpre, ?_⟩
      intro k2 hk2
      rcases List.mem_append.mp hk2 with h2 | h2
      · exact hpost k2 h2
      · rw [List.mem_singleton.mp h2]
        have h0 := fieldScore_of_ok_zero hok
        have h1 := fieldScore_pos hbk
        omega
  · rcases h with ⟨hacc, hall⟩ | ⟨bk, pre, post, hacc, hdone, hbk, hpre, hpost⟩
    · have hgt : (-1 : ℤ) < (fieldScore features k : ℤ) := by omega
      have hstep : scoreStep features acc k = (some k, (fieldScore features k : ℤ)) := by
        rw [hacc]
        simp [scoreStep, hok, hgt]
      rw [hstep]
      refine Or.inr ⟨k, done, [], rfl, by simp, hok, ?_, by simp⟩
      intro k2 hk2
      have h0 := fieldScore_of_ok_zero (hall k2 hk2)
      have h1 := fieldScore_pos hok
      omega
    · by_cases hcmp : (fieldScore features bk : ℤ) < (fieldScore features k : ℤ)
      · have hstep : scoreStep features acc k = (some k, (fieldScore features k : ℤ)) := by
          rw [hacc]
          simp [scoreStep, hok, hcmp]
        rw [hstep]
        refine Or.inr ⟨k, pre ++ bk :: post, [], rfl, by rw [hdone], hok, ?_, by simp⟩
        intro k2 hk2
        have hlt : fieldScore features bk < fieldScore features k := by omega
        rcases List.mem_append.mp hk2 with h2 | h2
        · exact lt_trans (hpre k2 h2) hlt
        · rcases List.mem_cons.mp h2 with h3 | h3
          · rw [h3]; exact hlt
          · exact lt_of_le_of_lt (hpost k2 h3) hlt
      · have hstep : scoreStep features acc k = acc := by
          rw [hacc]
          simp [scoreStep, hok, hcmp]
        rw [hstep]
        refine Or.inr ⟨bk, pre, post ++ [k], hacc, by rw [hdone]; simp, hbk, hpre, ?_⟩
        intro k2 hk2
        rcases List.mem_append.mp hk2 with h2 | h2
        · exact hpost k2 h2
        · rw [List.mem_singleton.mp h2]
          omega

/-- The full fold preserves the best-key invariant. -/
theorem foldl_scoreStep_inv (features : List Feature) :
    ∀ (ks done : List String) (acc : Option String × ℤ),
      ScoreInv features done acc →
      ScoreInv features (done ++ ks) (ks.foldl (scoreStep features) acc) := by
  intro ks
  induction ks with
  | nil =>
    intro done acc h
    simpa using h
  | cons k ks ih =>
    intro done acc h
    have h3 := ih (done ++ [k]) (scoreStep features acc k) (scoreStep_inv h k)
    simpa [List.append_assoc] using h3

/-- The loop run from `(None, -1)` over the candidate keys satisfies the
best-key invariant. -/
theorem scoreLoop_inv (features : List Feature) (keys : List String) :
    ScoreInv features keys (keys.foldl (scoreStep features) (none, -1)) := by
  have h := foldl_scoreStep_inv features keys [] (none, -1) (Or.inl ⟨rfl, by simp⟩)
  simpa using h

/-- C9: field inference fails with a schema error exactly when the feature
collection is empty or no candidate metadata field has even one value that
parses as an integer; otherwise it returns a field name. -/
theorem detect_fails_iff (features : List Feature) :
    detectFails (detect_ward_id_field features) = true ↔
      features = [] ∨ ∀ k ∈ candidateKeys features, okCount features k = 0 := by
  cases features with
  | nil => simp [detect_ward_id_field, detectFails]
  | cons f0 rest =>
    have hinv := scoreLoop_inv (f0 :: rest) (candidateKeys (f0 :: rest))
    rcases hfold : (candidateKeys (f0 :: rest)).foldl (scoreStep (f0 :: rest))
        ((none : Option String), (-1 : ℤ)) with ⟨o, s⟩
    rw [hfold] at hinv
    have hdet : detect_ward_id_field (f0 :: rest) =
        (match (o, s) with
          | (some k, _) => Except.ok k
          | (none, _) =>
            Except.error "Could not auto-detect ward number field in GeoJSON properties.") := by
      simp only [detect_ward_id_field]
      rw [hfold]
    constructor
    · intro h
      cases o with
      | some k =>
        rw [hdet] at h
        exact absurd h (by simp [detectFails])
      | none =>
        rcases hinv with ⟨_, hall⟩ | ⟨bk, pre, post, hacc, _, _, _, _⟩
        · exact Or.inr hall
        · exact absurd hacc (by simp)
    · intro h
      rcases h with h | hall
      · exact absurd h (by simp)
      · cases o with
        | some k =>
          exfalso
          rcases hinv with ⟨hacc, _⟩ | ⟨bk, pre, post, hacc, hdone, hbk, _, _⟩
          · exact absurd hacc (by simp)
          · exact hbk (hall bk (by rw [hdone]; simp))
        | none =>
          rw [hdet]
          rfl

/-- C4: whenever field inference succeeds, the returned key is the first
candidate key (in schema iteration order) attaining the maximal score
`ok + in_range`: every earlier key scores strictly less and every later
key scores no more.  On the spec's example collection
(OBJECTID = 101, 102, 103 and WARD_NUM = 1, 2, 3) it returns "WARD_NUM". -/
theorem detect_returns_first_best_field :
    (∀ (features : List Feature) (k : String), detect_ward_id_field features = .ok k →
      ∃ pre post,
        candidateKeys features = pre ++ k :: post ∧
        (∀ k2 ∈ pre, fieldScore features k2 < fieldScore features k) ∧
        (∀ k2 ∈ post, fieldScore features k2 ≤ fieldScore features k)) ∧
    detect_ward_id_field exFeatures = .ok "WARD_NUM" := by
  constructor
  · intro features k hk
    cases features with
    | nil => exact absurd hk (by simp [detect_ward_id_field])
    | cons f0 rest =>
      have hinv := scoreLoop_inv (f0 :: rest) (candidateKeys (f0 :: rest))
      rcases hfold : (candidateKeys (f0 :: rest)).foldl (scoreStep (f0 :: rest))
          ((none : Option String), (-1 : ℤ)) with ⟨o, s⟩
      rw [hfold] at hinv
      have hdet : detect_ward_id_field (f0 :: rest) =
          (match (o, s) with
            | (some k2, _) => Except.ok k2
            | (none, _) =>
              Except.error "Could not auto-detect ward number field in GeoJSON properties.") := by
        simp only [detect_ward_id_field]
        rw [hfold]
      cases o with
      | none =>
        rw [hdet] at hk
        exact absurd hk (by simp)
      | some bk =>
        rw [hdet] at hk
        have hbk : bk = k := by
          simpa using hk
        subst hbk
        rcases hinv with ⟨hacc, _⟩ | ⟨bk2, pre, post, hacc, hdone, _, hpre, hpost⟩
        · exact absurd hacc (by simp)
        · have hbk2 : bk2 = bk := by
            have := congrArg Prod.fst hacc
            simpa using this.symm
          subst hbk2
          exact ⟨pre, post, hdone, hpre, hpost⟩
  · rfl

/-- Witness for C4: on the example collection, "WARD_NUM" is indeed the
first maximal-score candidate key. -/
theorem detect_returns_first_best_field_witness :
    ∃ pre post,
      candidateKeys exFeatures = pre ++ "WARD_NUM" :: post ∧
      (∀ k2 ∈ pre, fieldScore exFeatures k2 < fieldScore exFeatures "WARD_NUM") ∧
      (∀ k2 ∈ post, fieldScore exFeatures k2 ≤ fieldScore exFeatures "WARD_NUM") :=
  detect_returns_first_best_field.1 exFeatures "WARD_NUM"
    detect_returns_first_best_field.2

/-- Decomposition of a successful `find?`: the found element satisfies the
predicate and everything before it fails it. -/
theorem find?_first_match {α : Type} (p : α → Bool) :
    ∀ (l : List α) (b : α), l.find? p = some b →
      p b = true ∧ ∃ pre post, l = pre ++ b :: post ∧ ∀ a ∈ pre, p a = false := by
  intro l
  induction l with
  | nil => intro b h; exact absurd h (by simp)
  | cons x xs ih =>
    intro b h
    by_cases hx : p x = true
    · rw [List.find?_cons_of_pos _ hx] at h
      injection h with h
      subst h
      exact ⟨hx, [], xs, rfl, by simp⟩
    · have hx2 : p x = false := by simpa using hx
      rw [List.find?_cons_of_neg _ (by simp [hx2])] at h
      rcases ih b h with ⟨hb, pre, post, hl, hpre⟩
      refine ⟨hb, x :: pre, post, by simp [hl], ?_⟩
      intro a ha
      rcases List.mem_cons.mp ha with h2 | h2
      · rw [h2]; exact hx2
      · exact hpre a h2

/-- A `find?` over a list that starts with failures followed by a success
returns that success, whatever comes afterwards. -/
theorem find?_append_of_first {α : Type} (p : α → Bool) (b : α) (hb : p b = true) :
    ∀ (pre post : List α), (∀ a ∈ pre, p a = false) →
      (pre ++ b :: post).find? p = some b := by
  intro pre
  induction pre with
  | nil =>
    intro post _
    simpa using List.find?_cons_of_pos post hb
  | cons x xs ih =>
    intro post hall
    have hx : p x = false := hall x (by simp)
    rw [List.cons_append, List.find?_cons_of_neg _ (by simp [hx])]
    exact ih post (fun a ha => hall a (by simp [ha]))

/-- A listing with a missing latitude is never assigned. -/
theorem assignListing_none_lat (wards : List WardPolygon) (l : Listing)
    (h : l.latitude = none) : assignListing wards l = none := by
  unfold assignListing
  rw [h]

/-- A listing with a missing longitude is never assigned. -/
theorem assignListing_none_lon (wards : List WardPolygon) (l : Listing)
    (h : l.longitude = none) : assignListing wards l = none := by
  unfold assignListing
  rw [h]
  rcases l.latitude with _ | lat <;> rfl

/-- On a listing with both coordinates present, assignment is the first
covering polygon's id. -/
theorem assignListing_eq_find (wards : List WardPolygon) (l : Listing)
    (lat lon : ℚ) (hlat : l.latitude = some lat) (hlon : l.longitude = some lon) :
    assignListing wards l =
      Option.map WardPolygon.ward_id (wards.find? (fun w => w.geometry (lon, lat))) := by
  have h2 : assignListing wards l =
      (match wards.find? (fun w => w.geometry (lon, lat)) with
        | some w => some w.ward_id
        | none => none) := by
    unfold assignListing
    rw [hlat, hlon]
  rw [h2]
  cases wards.find? (fun w => w.geometry (lon, lat)) <;> rfl

/-- C3: every listing the spatial assignment annotates with a ward id has
both coordinates, the annotated ward's polygon covers its point
(boundary-inclusively), no earlier polygon in the provided order covers
the point, and the assignment is unchanged whatever polygons follow the
first match — the loop tests nothing after it. -/
theorem assign_first_match (listings : List Listing) (wards : List WardPolygon)
    (l : Listing) (wid : ℤ)
    (h : (l, wid) ∈ assign_ward_to_points listings wards) :
    ∃ lat lon pre w post,
      l.latitude = some lat ∧ l.longitude = some lon ∧
      wards = pre ++ w :: post ∧ w.ward_id = wid ∧
      w.geometry (lon, lat) = true ∧
      (∀ w2 ∈ pre, w2.geometry (lon, lat) = false) ∧
      (∀ post2, assignListing (pre ++ w :: post2) l = some wid) := by
  rcases List.mem_filterMap.mp h with ⟨l2, _, hmap⟩
  rcases ho : assignListing wards l2 with _ | wid2 <;> rw [ho] at hmap
  · exact absurd hmap (by simp)
  · have hpair : l2 = l ∧ wid2 = wid := by simpa [Prod.ext_iff] using hmap
    rcases hpair with ⟨h1, h2⟩
    subst h1
    subst h2
    rcases hlat : l2.latitude with _ | lat
    · rw [assignListing_none_lat wards l2 hlat] at ho
      exact absurd ho (by simp)
    · rcases hlon : l2.longitude with _ | lon
      · rw [assignListing_none_lon wards l2 hlon] at ho
        exact absurd ho (by simp)
      · rw [assignListing_eq_find wards l2 lat lon hlat hlon] at ho
        rcases hf : wards.find? (fun w => w.geometry (lon, lat)) with _ | w <;>
          rw [hf] at ho
        · exact absurd ho (by simp)
        · have hwid : w.ward_id = wid2 := by simpa using ho
          rcases find?_first_match _ wards w hf with ⟨hcov, pre, post, hw, hpre⟩
          refine ⟨lat, lon, pre, w, post, rfl, rfl, hw, hwid, hcov, hpre, ?_⟩

          intro post2
          rw [assignListing_eq_find (pre ++ w :: post2) l2 lat lon hlat hlon,
            find?_append_of_first _ w hcov pre post2 hpre]
          simp [hwid]

/-- Witness for C3: the listing at longitude 1 is assigned to ward 7, the
second polygon in order, after the first polygon fails to cover it. -/
theorem assign_first_match_witness :
    ((exListingPt, (7:ℤ)) ∈ assign_ward_to_points [exListingPt] [exWardOut, exWardIn]) ∧
    ∃ lat lon pre w post,
      exListingPt.latitude = some lat ∧ exListingPt.longitude = some lon ∧
      [exWardOut, exWardIn] = pre ++ w :: post ∧ w.ward_id = 7 ∧
      w.geometry (lon, lat) = true ∧
      (∀ w2 ∈ pre, w2.geometry (lon, lat) = false) ∧
      (∀ post2, assignListing (pre ++ w :: post2) exListingPt = some 7) :=
  ⟨by decide,
   assign_first_match [exListingPt] [exWardOut, exWardIn] exListingPt 7 (by decide)⟩

/-- C7: a listing with a missing coordinate, or whose point no provided
polygon covers, is silently excluded: it receives no ward annotation and
belongs to no ward's aggregation group, so it reaches no aggregate row and
no dashboard row (which are functions of the aggregate rows alone).  All
pipeline functions are total, so the exclusion raises no error. -/
theorem unassignable_listing_excluded (listings : List Listing)
    (wards : List WardPolygon) (l : Listing)
    (h : l.latitude = none ∨ l.longitude = none ∨
      ∀ lat lon, l.latitude = some lat → l.longitude = some lon →
        ∀ w ∈ wards, w.geometry (lon, lat) = false) :
    (∀ wid, (l, wid) ∉ assign_ward_to_points listings wards) ∧
    (∀ w, l ∉ wardRows (assign_ward_to_points listings wards) w) := by
  have hnone : assignListing wards l = none := by
    rcases h with h | h | h
    · exact assignListing_none_lat wards l h
    · exact assignListing_none_lon wards l h
    · rcases hlat : l.latitude with _ | lat
      · exact assignListing_none_lat wards l hlat
      · rcases hlon : l.longitude with _ | lon
        · exact assignListing_none_lon wards l hlon
        · rw [assignListing_eq_find wards l lat lon hlat hlon,
            List.find?_eq_none.mpr ?_]
          · rfl
          · intro w hw
            simp [h lat lon hlat hlon w hw]
  have hnotmem : ∀ wid, (l, wid) ∉ assign_ward_to_points listings wards := by
    intro wid hmem
    rcases List.mem_filterMap.mp hmem with ⟨l2, _, hmap⟩
    rcases ho : assignListing wards l2 with _ | wid2 <;> rw [ho] at hmap
    · exact absurd hmap (by simp)
    · have hpair : l2 = l ∧ wid2 = wid := by simpa [Prod.ext_iff] using hmap
      rw [hpair.1] at ho
      rw [hnone] at ho
      exact absurd ho (by simp)
  refine ⟨hnotmem, ?_⟩
  intro w hmem
  rcases List.mem_map.mp hmem with ⟨p, hp, hfst⟩
  have hp2 : p ∈ assign_ward_to_points listings wards := List.mem_of_mem_filter hp
  have hpl : p = (l, p.2) := by
    rw [← hfst]
  rw [hpl] at hp2
  exact hnotmem p.2 hp2

/-- Witness for C7: the listing with a missing latitude is excluded from
the assignment output and from every ward group. -/
theorem unassignable_listing_excluded_witness :
    (exListingNoLat.latitude = none ∨ exListingNoLat.longitude = none ∨
      ∀ lat lon, exListingNoLat.latitude = some lat →
        exListingNoLat.longitude = some lon →
        ∀ w ∈ [exWardOut, exWardIn], w.geometry (lon, lat) = false) ∧
    (∀ wid, (exListingNoLat, wid) ∉
        assign_ward_to_points [exListingNoLat, exListingPt] [exWardOut, exWardIn]) ∧
    (∀ w, exListingNoLat ∉
        wardRows (assign_ward_to_points [exListingNoLat, exListingPt]
          [exWardOut, exWardIn]) w) :=
  ⟨Or.inl rfl,
   unassignable_listing_excluded [exListingNoLat, exListingPt] [exWardOut, exWardIn]
     exListingNoLat (Or.inl rfl)⟩

/-- Inserting into a sorted list permutes consing. -/
theorem insertRat_perm (x : ℚ) (l : List ℚ) : (insertRat x l).Perm (x :: l) := by
  induction l with
  | nil => simp [insertRat]
  | cons y ys ih =>
    simp only [insertRat]
    split_ifs with h
    · exact List.Perm.refl _
    · exact (ih.cons y).trans (List.Perm.swap x y ys)

/-- The insertion sort permutes its input. -/
theorem sortRat_perm (xs : List ℚ) : (sortRat xs).Perm xs := by
  unfold sortRat
  induction xs with
  | nil => simp
  | cons x xs ih => exact (insertRat_perm x _).trans (ih.cons x)

/-- Insertion preserves sortedness. -/
theorem insertRat_sorted (x : ℚ) :
    ∀ l : List ℚ, l.Sorted (· ≤ ·) → (insertRat x l).Sorted (· ≤ ·) := by
  intro l
  induction l with
  | nil => intro _; simp [insertRat]
  | cons y ys ih =>
    intro hs
    rcases List.sorted_cons.mp hs with ⟨hy, hys⟩
    simp only [insertRat]
    split_ifs with h1
    · refine List.sorted_cons.mpr ⟨?_, hs⟩
      intro b hb
      rcases List.mem_cons.mp hb with rfl | hb
      · exact h1
      · exact le_trans h1 (hy b hb)
    · refine List.sorted_cons.mpr ⟨?_, ih hys⟩
      intro b hb
      have hmem := (insertRat_perm x ys).mem_iff.mp hb
      rcases List.mem_cons.mp hmem with rfl | hb2
      · exact le_of_not_le h1
      · exact hy b hb2

/-- The insertion sort sorts ascending. -/
theorem sortRat_sorted (xs : List ℚ) : (sortRat xs).Sorted (· ≤ ·) := by
  unfold sortRat
  induction xs with
  | nil => simp
  | cons x xs ih => exact insertRat_sorted x _ ih

/-- The median is missing exactly on an empty value list. -/
theorem pandasMedian_eq_none (xs : List ℚ) : pandasMedian xs = none ↔ xs = [] := by
  unfold pandasMedian
  have hlen : (sortRat xs).length = xs.length := (sortRat_perm xs).length_eq
  split_ifs with h1 h2
  · constructor
    · intro _
      rw [hlen] at h1
      exact List.length_eq_zero.mp h1
    · intro _; rfl
  · constructor
    · intro h; exact absurd h (by simp)
    · intro h; subst h; exact h1 rfl
  · constructor
    · intro h; exact absurd h (by simp)
    · intro h; subst h; exact h1 rfl

/-- C6: on the end-to-end scenario of the spec (ward 1 prices 500000,
520000, 600000; ward 2 prices 700000, 720000) aggregation produces count 3
with median 520000 and mean 540000 for ward 1, and count 2 with median
710000 (the mean of the two middle values) for ward 2; in general the
median walk score of a ward is missing (null, not zero) exactly when every
walk score in the ward is missing, the mean price times the count equals
the sum of the ward's prices, and the price statistics are computed over
the sorted (hence order-insensitive) multiset of the ward's prices. -/
theorem ward_agg_statistics :
    (ward_agg exAssigned6 =
      [⟨1, 3, some 520000, some 540000, none⟩, ⟨2, 2, some 710000, some 710000, none⟩]) ∧
    (∀ (assigned : List (Listing × ℤ)) (w : ℤ),
      ((aggRow assigned w).Median_WalkScore = none ↔
        ∀ l ∈ wardRows assigned w, l.walkScore = none)) ∧
    (∀ (assigned : List (Listing × ℤ)) (w : ℤ) (q : ℚ),
      (aggRow assigned w).Mean_List_Price = some q →
        q * ((aggRow assigned w).Listings : ℚ) =
          ((wardRows assigned w).filterMap Listing.price).sum) ∧
    (∀ xs : List ℚ, (sortRat xs).Perm xs ∧ (sortRat xs).Sorted (· ≤ ·)) := by
  refine ⟨?_, ?_, ?_, fun xs => ⟨sortRat_perm xs, sortRat_sorted xs⟩⟩
  · have hward : wardsOf exAssigned6 = [1, 2] := by decide
    have hrows1 : (wardRows exAssigned6 1).filterMap Listing.price =
        [500000, 520000, 600000] := by decide
    have hrows2 : (wardRows exAssigned6 2).filterMap Listing.price =
        [700000, 720000] := by decide
    have hwalk1 : (wardRows exAssigned6 1).filterMap Listing.walkScore = [] := by decide
    have hwalk2 : (wardRows exAssigned6 2).filterMap Listing.walkScore = [] := by decide
    have hmed1 : pandasMedian [500000, 520000, 600000] = some 520000 := by decide
    have hmed2 : pandasMedian [700000, 720000] = some 710000 := by
      norm_num [pandasMedian, sortRat, insertRat]
    have hmean1 : pandasMean [500000, 520000, 600000] = some 540000 := by
      norm_num [pandasMean]
    have hmean2 : pandasMean [700000, 720000] = some 710000 := by
      norm_num [pandasMean]
    have hmpty : pandasMedian ([] : List ℚ) = none := by decide
    have h1 : aggRow exAssigned6 1 = ⟨1, 3, some 520000, some 540000, none⟩ := by
      simp [aggRow, hrows1, hwalk1, hmed1, hmean1, hmpty]
    have h2 : aggRow exAssigned6 2 = ⟨2, 2, some 710000, some 710000, none⟩ := by
      simp [aggRow, hrows2, hwalk2, hmed2, hmean2, hmpty]
    simp [ward_agg, hward, h1, h2]
  · intro assigned w
    have h := pandasMedian_eq_none ((wardRows assigned w).filterMap Listing.walkScore)
    have hshow : (aggRow assigned w).Median_WalkScore =
        pandasMedian ((wardRows assigned w).filterMap Listing.walkScore) := rfl
    rw [hshow, h]
    exact List.filterMap_eq_nil_iff
  · intro assigned w q hq
    have hq2 : pandasMean ((wardRows assigned w).filterMap Listing.price) = some q := hq
    unfold pandasMean at hq2
    split_ifs at hq2 with h
    have hval : ((wardRows assigned w).filterMap Listing.price).sum /
        ((((wardRows assigned w).filterMap Listing.price).length : ℕ) : ℚ) = q := by
      simpa using hq2
    have hlen : ((((wardRows assigned w).filterMap Listing.price).length : ℕ) : ℚ) ≠ 0 := by
      simpa using h
    have hshow : ((aggRow assigned w).Listings : ℚ) =
        ((((wardRows assigned w).filterMap Listing.price).length : ℕ) : ℚ) := rfl
    rw [hshow, ← hval]
    field_simp

/-- Witness for C6's general clauses at the concrete scenario: ward 1 of
the example has mean 540000 over count 3 summing to 1620000. -/
theorem ward_agg_statistics_witness :
    (aggRow exAssigned6 1).Mean_List_Price = some 540000 ∧
    540000 * ((aggRow exAssigned6 1).Listings : ℚ) =
      ((wardRows exAssigned6 1).filterMap Listing.price).sum :=
  ⟨by
    have hrows1 : (wardRows exAssigned6 1).filterMap Listing.price =
        [500000, 520000, 600000] := by decide
    show pandasMean ((wardRows exAssigned6 1).filterMap Listing.price) = some 540000
    rw [hrows1]
    norm_num [pandasMean],
   ward_agg_statistics.2.2.1 exAssigned6 1 540000 (by
    have hrows1 : (wardRows exAssigned6 1).filterMap Listing.price =
        [500000, 520000, 600000] := by decide
    show pandasMean ((wardRows exAssigned6 1).filterMap Listing.price) = some 540000
    rw [hrows1]
    norm_num [pandasMean])⟩

/-- Dividing each mapped value by a constant divides the sum. -/
theorem sum_map_div {α : Type} (l : List α) (f : α → ℚ) (c : ℚ) :
    (l.map (fun a => f a / c)).sum = (l.map f).sum / c := by
  induction l with
  | nil => simp
  | cons x xs ih => simp [ih, add_div]

/-- Casting the mapped values to the rationals casts the sum. -/
theorem sum_map_natCast {α : Type} (l : List α) (f : α → ℕ) :
    (l.map (fun a => (f a : ℚ))).sum = (((l.map f).sum : ℕ) : ℚ) := by
  induction l with
  | nil => simp
  | cons x xs ih => simp [ih]

/-- The per-category counts of a ward, summed over every globally observed
category, give the ward's non-missing-style row count. -/
theorem sum_styleCount (assigned : List (Listing × ℤ)) (w : ℤ) :
    ((globalStyles assigned).map (fun s => styleCount assigned w s)).sum =
      wardStyleTotal assigned w := by
  have hsub : ∀ s ∈ (wardRows assigned w).filterMap Listing.style,
      s ∈ (assigned.map Prod.fst).filterMap Listing.style := by
    intro s hs
    rcases List.mem_filterMap.mp hs with ⟨l, hl, hstyle⟩
    rcases List.mem_map.mp hl with ⟨p, hp, hfst⟩
    exact List.mem_filterMap.mpr
      ⟨l, List.mem_map.mpr ⟨p, List.mem_of_mem_filter hp, hfst⟩, hstyle⟩
  unfold styleCount wardStyleTotal globalStyles
  calc (((assigned.map Prod.fst).filterMap Listing.style).dedup.map
          (fun s => ((wardRows assigned w).filterMap Listing.style).count s)).sum
      = ((assigned.map Prod.fst).filterMap Listing.style).dedup.toFinset.sum
          (fun s => ((wardRows assigned w).filterMap Listing.style).count s) :=
        (List.sum_toFinset _ (List.nodup_dedup _)).symm
    _ = ((assigned.map Prod.fst).filterMap Listing.style).toFinset.sum
          (fun s => ((wardRows assigned w).filterMap Listing.style).count s) := by
        have hset : ((assigned.map Prod.fst).filterMap Listing.style).dedup.toFinset =
            ((assigned.map Prod.fst).filterMap Listing.style).toFinset := by
          ext a
          simp [List.mem_toFinset, List.mem_dedup]
        rw [hset]
    _ = ((wardRows assigned w).filterMap Listing.style).toFinset.sum
          (fun s => ((wardRows assigned w).filterMap Listing.style).count s) := by
        refine (Finset.sum_subset ?_ ?_).symm
        · intro s hs
          exact List.mem_toFinset.mpr (hsub s (List.mem_toFinset.mp hs))
        · intro s _ hs
          exact List.count_eq_zero_of_not_mem (fun hmem => hs (List.mem_toFinset.mpr hmem))
    _ = ((wardRows assigned w).filterMap Listing.style).length :=
        List.sum_toFinset_count_eq_length _

/-- C5 amended: for every ward of the aggregate output at least one of
whose rows has a non-missing style, the style-share entries over all
globally observed categories sum to exactly 1 (the computation is exact
over the rationals, subsuming the floating-point tolerance), every
category observed anywhere in the assigned dataset has a column, and a
category with zero occurrences in such a ward receives the entry 0
rather than being absent.  (A ward all of whose rows lack a style instead
receives missing entries — see the counterexample.) -/
theorem style_share_rows (assigned : List (Listing × ℤ)) (w : ℤ)
    (_hw : w ∈ wardsOf assigned) (hst : wardStyleTotal assigned w ≠ 0) :
    ((globalStyles assigned).map (fun s => (styleShareEntry assigned w s).getD 0)).sum = 1 ∧
    (∀ l ∈ wardRows assigned w, ∀ s, l.style = some s → s ∈ globalStyles assigned) ∧
    (∀ s ∈ globalStyles assigned, styleCount assigned w s = 0 →
      styleShareEntry assigned w s = some 0) := by
  refine ⟨?_, ?_, ?_⟩
  · have hmap : (globalStyles assigned).map
        (fun s => (styleShareEntry assigned w s).getD 0) =
        (globalStyles assigned).map (fun s =>
          (styleCount assigned w s : ℚ) / (wardStyleTotal assigned w : ℚ)) := by
      apply List.map_congr_left
      intro s _
      simp [styleShareEntry, hst]
    rw [hmap, sum_map_div, sum_map_natCast, sum_styleCount]
    exact div_self (by exact_mod_cast hst)
  · intro l hl s hs
    rcases List.mem_map.mp hl with ⟨p, hp, hfst⟩
    unfold globalStyles
    rw [List.mem_dedup]
    exact List.mem_filterMap.mpr
      ⟨l, List.mem_map.mpr ⟨p, List.mem_of_mem_filter hp, hfst⟩, hs⟩
  · intro s _ hcount
    simp [styleShareEntry, hst, hcount]

/-- Witness for the amended C5: ward 2 of the two-ward example has one
styled listing, so its single share column sums to 1. -/
theorem style_share_rows_witness :
    ((2 : ℤ) ∈ wardsOf exAssigned5 ∧ wardStyleTotal exAssigned5 2 ≠ 0) ∧
    (((globalStyles exAssigned5).map
        (fun s => (styleShareEntry exAssigned5 2 s).getD 0)).sum = 1 ∧
      (∀ l ∈ wardRows exAssigned5 2, ∀ s, l.style = some s →
        s ∈ globalStyles exAssigned5) ∧
      (∀ s ∈ globalStyles exAssigned5, styleCount exAssigned5 2 s = 0 →
        styleShareEntry exAssigned5 2 s = some 0)) :=
  ⟨⟨by decide, by decide⟩, style_share_rows exAssigned5 2 (by decide) (by decide)⟩

/-- Counterexample to C5 as stated: ward 1 of `exAssigned5` appears in the
aggregate output with one listing, yet its only listing has a missing
style, so its StyleShare entry for the globally observed category "Condo"
is missing (NaN after the left merge), not 0, and its share columns sum
to 0, not 1. -/
theorem style_share_nan_ward :
    (1 : ℤ) ∈ wardsOf exAssigned5 ∧
    "Condo" ∈ globalStyles exAssigned5 ∧
    styleShareEntry exAssigned5 1 "Condo" = none ∧
    ((globalStyles exAssigned5).map
        (fun s => (styleShareEntry exAssigned5 1 s).getD 0)).sum ≠ 1 := by
  refine ⟨by decide, by decide, by decide, ?_⟩
  have h1 : (globalStyles exAssigned5).map
      (fun s => (styleShareEntry exAssigned5 1 s).getD 0) = [0] := by decide
  rw [h1]
  norm_num

/-- Membership in `insertWard`. -/
theorem mem_insertWard (x y : ℤ) :
    ∀ l : List ℤ, (y ∈ insertWard x l ↔ y = x ∨ y ∈ l) := by
  intro l
  induction l with
  | nil => simp [insertWard]
  | cons z zs ih =>
    simp only [insertWard]
    split_ifs with h1 h2
    · simp [List.mem_cons]
    · subst h2
      simp only [List.mem_cons]
      tauto
    · simp only [List.mem_cons, ih]
      tauto

/-- `insertWard` preserves strict sortedness. -/
theorem sorted_insertWard (x : ℤ) :
    ∀ l : List ℤ, l.Sorted (· < ·) → (insertWard x l).Sorted (· < ·) := by
  intro l
  induction l with
  | nil => intro _; simp [insertWard]
  | cons y ys ih =>
    intro hs
    rcases List.sorted_cons.mp hs with ⟨hy, hys⟩
    simp only [insertWard]
    split_ifs with h1 h2
    · refine List.sorted_cons.mpr ⟨?_, hs⟩
      intro b hb
      rcases List.mem_cons.mp hb with rfl | hb
      · exact h1
      · exact lt_trans h1 (hy b hb)
    · exact hs
    · have hx : y < x := by omega
      refine List.sorted_cons.mpr ⟨?_, ih hys⟩
      intro b hb
      rcases (mem_insertWard x b ys).mp hb with rfl | hb
      · exact hx
      · exact hy b hb

/-- The ward index of the aggregate table is strictly sorted. -/
theorem wardsOf_sorted (assigned : List (Listing × ℤ)) :
    (wardsOf assigned).Sorted (· < ·) := by
  unfold wardsOf
  induction assigned.map Prod.snd with
  | nil => simp
  | cons x xs ih => exact sorted_insertWard x _ ih

/-- The ward index of the aggregate table has no duplicates: one aggregate
row per ward. -/
theorem wardsOf_nodup (assigned : List (Listing × ℤ)) :
    (wardsOf assigned).Nodup :=
  (wardsOf_sorted assigned).nodup

/-- A filter and its complement split the length. -/
theorem length_filter_split {α : Type} (p : α → Bool) :
    ∀ l : List α, (l.filter p).length + (l.filter (fun a => !(p a))).length = l.length := by
  intro l
  induction l with
  | nil => rfl
  | cons x xs ih =>
    by_cases hp : p x = true
    · simp only [List.filter_cons, hp, Bool.not_true, if_true, if_false,
        Bool.false_eq_true, List.length_cons]
      omega
    · have hp2 : p x = false := by simpa using hp
      simp only [List.filter_cons, hp2, Bool.not_false, if_true, if_false,
        Bool.false_eq_true, List.length_cons]
      omega

/-- Filtering twice with an implied condition filters once. -/
theorem filter_filter_of_imp {α : Type} (p q : α → Bool)
    (h : ∀ a, p a = true → q a = true) :
    ∀ l : List α, (l.filter q).filter p = l.filter p := by
  intro l
  induction l with
  | nil => rfl
  | cons x xs ih =>
    by_cases hp : p x = true
    · have hq : q x = true := h x hp
      simp [List.filter_cons, hp, hq, ih]
    · have hp2 : p x = false := by simpa using hp
      by_cases hq : q x = true
      · simp [List.filter_cons, hp2, hq, ih]
      · have hq2 : q x = false := by simpa using hq
        simp [List.filter_cons, hp2, hq2, ih]

/-- With duplicate-free aggregate keys, at most one aggregate row matches
a given ward key. -/
theorem filter_ward_length_le_one (k : ℤ) :
    ∀ agg : List WardAggRow, (agg.map WardAggRow.Ward).Nodup →
      (agg.filter (fun a => decide (a.Ward = k))).length ≤ 1 := by
  intro agg
  induction agg with
  | nil => intro _; simp
  | cons a as ih =>
    intro hnd
    simp only [List.map_cons, List.nodup_cons] at hnd
    by_cases hk : a.Ward = k
    · have hfil : as.filter (fun a2 => decide (a2.Ward = k)) = [] := by
        rw [List.filter_eq_nil_iff]
        intro a2 ha2
        simp only [decide_eq_true_eq]
        intro he
        exact hnd.1 (by rw [hk, ← he]; exact List.mem_map.mpr ⟨a2, ha2, rfl⟩)
      simp [List.filter_cons, hk, hfil]
    · simp only [List.filter_cons, decide_eq_true_eq, hk, if_false]
      exact ih hnd.2

/-- The merge length is the sum over income rows of their match counts. -/
theorem innerMerge_length (income : List IncomeRow) (agg : List WardAggRow) :
    (innerMerge income agg).length =
      (income.map (fun i => (agg.filter (fun a => decide (a.Ward = i.Ward))).length)).sum := by
  unfold innerMerge
  induction income with
  | nil => rfl
  | cons i is ih => simp [List.flatMap_cons, ih]

/-- With duplicate-free aggregate keys, the merge has at most one row per
income row. -/
theorem innerMerge_length_le_left (income : List IncomeRow) (agg : List WardAggRow)
    (hnd : (agg.map WardAggRow.Ward).Nodup) :
    (innerMerge income agg).length ≤ income.length := by
  rw [innerMerge_length]
  induction income with
  | nil => simp
  | cons i is ih =>
    simp only [List.map_cons, List.sum_cons, List.length_cons]
    have h1 := filter_ward_length_le_one i.Ward agg hnd
    omega

/-- With duplicate-free income keys, the merge has at most one row per
aggregate row. -/
theorem innerMerge_length_le_right :
    ∀ (income : List IncomeRow) (agg : List WardAggRow),
      (income.map IncomeRow.Ward).Nodup →
      (innerMerge income agg).length ≤ agg.length := by
  intro income
  induction income with
  | nil => intro agg _; simp [innerMerge]
  | cons i is ih =>
    intro agg hnd
    simp only [List.map_cons, List.nodup_cons] at hnd
    have hlen : (innerMerge (i :: is) agg).length =
        (agg.filter (fun a => decide (a.Ward = i.Ward))).length +
          (innerMerge is agg).length := by
      simp [innerMerge, List.flatMap_cons]
    have hswap : (innerMerge is agg).length =
        (innerMerge is (agg.filter (fun a => !(decide (a.Ward = i.Ward))))).length := by
      rw [innerMerge_length, innerMerge_length]
      congr 1
      apply List.map_congr_left
      intro j hj
      have hne : j.Ward ≠ i.Ward := by
        intro he
        exact hnd.1 (by rw [← he]; exact List.mem_map.mpr ⟨j, hj, rfl⟩)
      rw [filter_filter_of_imp]
      intro a ha
      simp only [decide_eq_true_eq] at ha
      simp [ha, hne]
    have hsplit := length_filter_split (fun a => decide (a.Ward = i.Ward)) agg
    have hrec := ih (agg.filter (fun a => !(decide (a.Ward = i.Ward)))) hnd.2
    omega

/-- Membership in the inner merge: exactly the matching pairs. -/
theorem mem_innerMerge (income : List IncomeRow) (agg : List WardAggRow)
    (pr : IncomeRow × WardAggRow) :
    pr ∈ innerMerge income agg ↔
      pr.1 ∈ income ∧ pr.2 ∈ agg ∧ pr.2.Ward = pr.1.Ward := by
  unfold innerMerge
  constructor
  · intro h
    rcases List.mem_flatMap.mp h with ⟨i, hi, hmem⟩
    rcases List.mem_map.mp hmem with ⟨a, ha, he⟩
    rcases List.mem_filter.mp ha with ⟨ha2, hward⟩
    simp only [decide_eq_true_eq] at hward
    rw [← he]
    exact ⟨hi, ha2, hward⟩
  · rintro ⟨h1, h2, h3⟩
    refine List.mem_flatMap.mpr ⟨pr.1, h1, List.mem_map.mpr ⟨pr.2, ?_, rfl⟩⟩
    exact List.mem_filter.mpr ⟨h2, by simp [h3]⟩

/-- C8 amended: unconditionally, every dashboard row's ward id appears in
both inputs, so a ward id present in only one of them never appears — for
every income table, duplicated ward ids included; and provided the income
table's ward ids are distinct (the aggregate side is distinct by
construction — one row per ward), the dashboard row count is at most the
minimum of the two input row counts. -/
theorem dashboard_inner_join (assigned : List (Listing × ℤ)) (income : List IncomeRow) :
    ((income.map IncomeRow.Ward).Nodup →
      (dashboard income (ward_agg assigned)).length ≤
        min income.length (ward_agg assigned).length) ∧
    (∀ d ∈ dashboard income (ward_agg assigned),
      d.income.Ward = d.agg.Ward ∧
      (∃ i ∈ income, i.Ward = d.agg.Ward) ∧
      (∃ a ∈ ward_agg assigned, a.Ward = d.agg.Ward)) := by
  constructor
  · intro hinc
    have hagg_nd : ((ward_agg assigned).map WardAggRow.Ward).Nodup := by
      have hmm : (ward_agg assigned).map WardAggRow.Ward = wardsOf assigned := by
        unfold ward_agg
        rw [List.map_map]
        have h2 : (WardAggRow.Ward ∘ aggRow assigned) = fun w : ℤ => w := by
          funext w
          rfl
        rw [h2]
        exact List.map_id' _
      rw [hmm]
      exact wardsOf_nodup assigned
    have hlen : (dashboard income (ward_agg assigned)).length =
        (innerMerge income (ward_agg assigned)).length := by
      simp [dashboard]
    rw [hlen, le_min_iff]
    exact ⟨innerMerge_length_le_left income _ hagg_nd,
      innerMerge_length_le_right income _ hinc⟩
  · intro d hd
    rcases List.mem_map.mp hd with ⟨pr, hpr, he⟩
    rcases (mem_innerMerge income _ pr).mp hpr with ⟨h1, h2, h3⟩
    have hin : d.income = pr.1 := by rw [← he]; rfl
    have hag : d.agg = pr.2 := by rw [← he]; rfl
    rw [hin, hag]
    exact ⟨h3.symm, ⟨pr.1, h1, h3.symm⟩, ⟨pr.2, h2, rfl⟩⟩

/-- Witness for C8 on concrete inputs: the count bound discharged on the
duplicate-free income table with wards 1 and 9, and the membership
guarantee instantiated on the duplicate-key income table of the
counterexample, where it holds as well. -/
theorem dashboard_inner_join_witness :
    ((exIncomeOk.map IncomeRow.Ward).Nodup ∧
      (dashboard exIncomeOk (ward_agg exAssignedC2)).length ≤
        min exIncomeOk.length (ward_agg exAssignedC2).length) ∧
    (∀ d ∈ dashboard exIncomeDup (ward_agg exAssignedC2),
      d.income.Ward = d.agg.Ward ∧
      (∃ i ∈ exIncomeDup, i.Ward = d.agg.Ward) ∧
      (∃ a ∈ ward_agg exAssignedC2, a.Ward = d.agg.Ward)) :=
  ⟨⟨by decide, (dashboard_inner_join exAssignedC2 exIncomeOk).1 (by decide)⟩,
   (dashboard_inner_join exAssignedC2 exIncomeDup).2⟩

/-- Counterexample to C8's unconditional row-count bound: with a
duplicated ward id in the income table the merge emits one row per
matching pair, so the dashboard has 2 rows although the aggregate input
has only 1 — more than the minimum of the two input row counts.  (The
income table is external data; the pipeline never deduplicates it.) -/
theorem dashboard_exceeds_min_on_dup_income :
    (dashboard exIncomeDup (ward_agg exAssignedC2)).length = 2 ∧
    exIncomeDup.length = 2 ∧
    (ward_agg exAssignedC2).length = 1 ∧
    ¬ ((dashboard exIncomeDup (ward_agg exAssignedC2)).length ≤
        min exIncomeDup.length (ward_agg exAssignedC2).length) :=
  ⟨by decide, rfl, by decide, by decide⟩
